import Mathlib

/-!
Verification of the Four in a Row rule engine (`four_in_a_row.py`).

The board is a list of rows, each row a list of cell strings, exactly as in
the Python source (`create_board`, `drop_piece`, `check_direction`,
`has_winner`, `is_draw`).  Cells are strings: `" "` for empty and the
player token strings `"X"` / `"O"`.  Python's in-place mutation of
`board[row][column]` is embedded as explicit state passing (`setCell`).
-/

namespace FourInARow

/-- `ROWS = 6` from the source. -/
def ROWS : ℕ := 6

/-- `COLUMNS = 7` from the source. -/
def COLUMNS : ℕ := 7

/-- `EMPTY = " "` from the source. -/
def EMPTY : String := " "

/-- `PLAYER_TOKENS = ("X", "O")` from the source. -/
def PLAYER_TOKENS : List String := ["X", "O"]

/-- A board is a list of rows, each row a list of cell strings, mirroring
the Python `List[List[str]]`. -/
abbrev Board := List (List String)

/-- `create_board`: a `ROWS × COLUMNS` grid of `EMPTY` cells. -/
def create_board : Board := List.replicate ROWS (List.replicate COLUMNS EMPTY)

/-- Read `board[r][c]`.  The Python source only ever indexes in bounds;
out-of-shape reads default to `EMPTY`. -/
def cell (b : Board) (r c : ℕ) : String := (b.getD r []).getD c EMPTY

/-- Write `board[r][c] = t` (a no-op out of shape, like `List.set`). -/
def setCell (b : Board) (r c : ℕ) (t : String) : Board :=
  b.set r ((b.getD r []).set c t)

/-- Well-formedness: the grid has exactly `ROWS` rows of `COLUMNS` cells,
as every board built by the program does. -/
def Wf (b : Board) : Prop :=
  b.length = ROWS ∧ ∀ row ∈ b, row.length = COLUMNS

/-- The loop `for row in range(ROWS-1, -1, -1)` of `drop_piece`, with `n`
rows still to scan: it examines rows `n-1, n-2, …, 0` and places `t` in
the first `EMPTY` cell, returning the updated board and the success flag
(the Python return value). -/
def dropFrom (b : Board) (n : ℕ) (c : ℕ) (t : String) : Board × Bool :=
  match n with
  | 0 => (b, false)
  | r + 1 => if cell b r c = EMPTY then (setCell b r c t, true) else dropFrom b r c t

/-- `drop_piece(board, column, token)` from the source: validates the
column, then scans from the bottom row (`ROWS-1`) upward; returns the
(possibly updated) board with the Python boolean result. -/
def drop_piece (b : Board) (column : ℤ) (token : String) : Board × Bool :=
  if column < 0 ∨ (COLUMNS : ℤ) ≤ column then (b, false)
  else dropFrom b ROWS column.toNat token

/-- The spec's placement errors for `Board.drop`. -/
inductive PlacementError where
  | OutOfRange
  | ColumnFull
deriving DecidableEq

/-- The same bottom-up scan as `dropFrom`, but reporting the spec's
`Result<row, PlacementError>`: the row index placed into on success,
`ColumnFull` when no `EMPTY` cell remains. -/
def dropScan (b : Board) (n : ℕ) (c : ℕ) (t : String) :
    Except PlacementError (ℕ × Board) :=
  match n with
  | 0 => .error .ColumnFull
  | r + 1 =>
    if cell b r c = EMPTY then .ok (r, setCell b r c t) else dropScan b r c t

/-- The spec's `Board.drop(column, token) -> Result<row, PlacementError>`
interface over the same scan the source performs: validates
`0 ≤ column < COLUMNS` (else `OutOfRange`), then scans bottom-up placing
in the first `EMPTY` cell and returning its row, else `ColumnFull`. -/
def drop (b : Board) (column : ℤ) (token : String) :
    Except PlacementError (ℕ × Board) :=
  if column < 0 ∨ (COLUMNS : ℤ) ≤ column then .error .OutOfRange
  else dropScan b ROWS column.toNat token

/-- `check_direction(board, start_row, start_col, delta_row, delta_col)`
from the source: the start cell is non-empty and the cells at steps
`1, 2, 3` along the direction are in bounds and hold the same token. -/
def check_direction (b : Board) (start_row start_col : ℕ)
    (delta_row delta_col : ℤ) : Bool :=
  let token := cell b start_row start_col
  if token = EMPTY then false
  else
    ([1, 2, 3] : List ℤ).all fun step =>
      let r := (start_row : ℤ) + step * delta_row
      let c := (start_col : ℤ) + step * delta_col
      decide (0 ≤ r ∧ r < (ROWS : ℤ) ∧ 0 ≤ c ∧ c < (COLUMNS : ℤ)) &&
        (cell b r.toNat c.toNat == token)

/-- The direction tuple of `has_winner`: horizontal, vertical, main
diagonal, anti diagonal. -/
def directions : List (ℤ × ℤ) := [(0, 1), (1, 0), (1, 1), (1, -1)]

/-- `has_winner(board)` from the source: some cell starts a winning run
in one of the four directions. -/
def has_winner (b : Board) : Bool :=
  (List.range ROWS).any fun row =>
    (List.range COLUMNS).any fun col =>
      directions.any fun d => check_direction b row col d.1 d.2

/-- `is_draw(board)` from the source: every cell of row 0 is non-empty. -/
def is_draw (b : Board) : Bool :=
  (List.range COLUMNS).all fun col => !(cell b 0 col == EMPTY)

/-- The spec's `Outcome` type. -/
inductive Outcome where
  | InProgress
  | Win (t : String)
  | Draw
deriving DecidableEq

/-- The outcome evaluation `main` performs after each accepted move
(source lines 101–109): the win check first, the draw check only if it
fails, else the game goes on. -/
def evalMove (b : Board) (t : String) : Outcome :=
  if has_winner b then .Win t else if is_draw b then .Draw else .InProgress

/-- Boards reachable from the freshly created board by `drop_piece`
calls — the only mutation the program performs. -/
inductive Reachable : Board → Prop where
  | init : Reachable create_board
  | step (b : Board) (c : ℤ) (t : String) :
      Reachable b → Reachable (drop_piece b c t).1

/-- The gravity invariant: a non-empty cell has every cell below it in
the same column (larger row index) non-empty. -/
def Gravity (b : Board) : Prop :=
  ∀ r < ROWS, ∀ c < COLUMNS, ∀ r' < ROWS,
    r < r' → cell b r c ≠ EMPTY → cell b r' c ≠ EMPTY

/-- A board whose every cell holds `"X"`: full, and covered in winning
lines. -/
def fullX : Board := List.replicate ROWS (List.replicate COLUMNS "X")

/-- A board whose top row is full of `"X"` while every other cell is
still empty. -/
def topRowOnly : Board :=
  List.replicate COLUMNS "X" ::
    List.replicate (ROWS - 1) (List.replicate COLUMNS EMPTY)

/-- Repeated `drop_piece` calls into one column, one per listed token;
the flag records that every single drop succeeded. -/
def dropSeq (b : Board) (c : ℤ) (ts : List String) : Board × Bool :=
  match ts with
  | [] => (b, true)
  | t :: rest =>
    let p := drop_piece b c t
    let q := dropSeq p.1 c rest
    (q.1, p.2 && q.2)

/-- The minimal main-diagonal run: token `T` at `(r+i, c+i)` for
`i = 0..3` on an otherwise empty board. -/
def diagBoard (T : String) (r c : ℕ) : Board :=
  setCell (setCell (setCell (setCell create_board r c T)
    (r + 1) (c + 1) T) (r + 2) (c + 2) T) (r + 3) (c + 3) T

/-- The minimal anti-diagonal run: token `T` at `(r+i, c-i)` for
`i = 0..3` on an otherwise empty board. -/
def antiBoard (T : String) (r c : ℕ) : Board :=
  setCell (setCell (setCell (setCell create_board r c T)
    (r + 1) (c - 1) T) (r + 2) (c - 2) T) (r + 3) (c - 3) T

end FourInARow

namespace FourInARow

/-- C9: on the board returned by `create_board` — every cell `EMPTY` —
`has_winner` is false and `is_draw` is false. -/
theorem claim_C9_fresh_board :
    has_winner create_board = false ∧ is_draw create_board = false := by
  decide

/-- C4: in the post-move evaluation of the game loop the draw condition
is tested only after the win check, so whenever both the win and the draw
conditions hold on the position, the outcome is `Win t`, never `Draw`. -/
theorem claim_C4_win_precedes_draw (b : Board) (t : String)
    (hwin : has_winner b = true) (hdraw : is_draw b = true) :
    evalMove b t = Outcome.Win t ∧ evalMove b t ≠ Outcome.Draw := by
  refine ⟨?_, ?_⟩ <;> simp [evalMove, hwin, hdraw]

/-- Witness for C4: the all-`"X"` board is both full and winning, and the
loop's evaluation reports the win. -/
theorem claim_C4_win_precedes_draw_witness :
    evalMove fullX "X" = Outcome.Win "X" ∧ evalMove fullX "X" ≠ Outcome.Draw :=
  claim_C4_win_precedes_draw fullX "X" (by decide) (by decide)

/-- C10: `is_draw` reads only row 0 — two boards agreeing on row 0 get
the same answer — and it never consults the win condition: on the
all-`"X"` board both `has_winner` and `is_draw` are true, so the
win-over-draw precedence lives in the caller's evaluation order alone. -/
theorem claim_C10_is_draw_ignores_winner :
    (∀ b b' : Board, (∀ c < COLUMNS, cell b 0 c = cell b' 0 c) →
      is_draw b = is_draw b') ∧
    (has_winner fullX = true ∧ is_draw fullX = true) := by
  constructor
  · intro b b' h
    unfold is_draw
    rw [Bool.eq_iff_iff]
    simp only [List.all_eq_true, List.mem_range]
    constructor <;> intro hall c hc <;> have := hall c hc
    · rwa [h c hc] at this
    · rwa [← h c hc] at this
  · decide

/-- Witness for C10: applying the row-0 locality at the created board. -/
theorem claim_C10_is_draw_ignores_winner_witness :
    is_draw create_board = is_draw create_board ∧
    has_winner fullX = true ∧ is_draw fullX = true :=
  ⟨(claim_C10_is_draw_ignores_winner).1 create_board create_board
      (fun _ _ => rfl),
   (claim_C10_is_draw_ignores_winner).2⟩

/-- `check_direction` succeeds exactly when the start cell is non-empty
and the three cells at steps 1, 2, 3 along the direction are in bounds
and hold the start cell's token. -/
lemma check_direction_iff (b : Board) (r c : ℕ) (dr dc : ℤ) :
    check_direction b r c dr dc = true ↔
      cell b r c ≠ EMPTY ∧
      ∀ step ∈ ([1, 2, 3] : List ℤ),
        0 ≤ (r : ℤ) + step * dr ∧ (r : ℤ) + step * dr < (ROWS : ℤ) ∧
        0 ≤ (c : ℤ) + step * dc ∧ (c : ℤ) + step * dc < (COLUMNS : ℤ) ∧
        cell b ((r : ℤ) + step * dr).toNat ((c : ℤ) + step * dc).toNat
          = cell b r c := by
  by_cases h : cell b r c = EMPTY
  · simp [check_direction, h]
  · simp only [check_direction, h, if_false, List.all_eq_true,
      Bool.and_eq_true, decide_eq_true_eq, beq_iff_eq]
    constructor
    · intro hall
      refine ⟨h, fun step hs => ?_⟩
      obtain ⟨⟨h1, h2, h3, h4⟩, h5⟩ := hall step hs
      exact ⟨h1, h2, h3, h4, h5⟩
    · rintro ⟨-, hall⟩ step hs
      obtain ⟨h1, h2, h3, h4, h5⟩ := hall step hs
      exact ⟨⟨h1, h2, h3, h4⟩, h5⟩

/-- C2: `has_winner` is true iff some cell `(r, c)` holds a non-empty
token and, along one of the four forward directions, the cells at steps
1, 2, 3 are in bounds and hold that same token. -/
theorem claim_C2_has_winner_iff (b : Board) :
    has_winner b = true ↔
      ∃ r < ROWS, ∃ c < COLUMNS, ∃ d ∈ directions,
        cell b r c ≠ EMPTY ∧
        ∀ step ∈ ([1, 2, 3] : List ℤ),
          0 ≤ (r : ℤ) + step * d.1 ∧ (r : ℤ) + step * d.1 < (ROWS : ℤ) ∧
          0 ≤ (c : ℤ) + step * d.2 ∧ (c : ℤ) + step * d.2 < (COLUMNS : ℤ) ∧
          cell b ((r : ℤ) + step * d.1).toNat ((c : ℤ) + step * d.2).toNat
            = cell b r c := by
  simp only [has_winner, List.any_eq_true, List.mem_range,
    check_direction_iff]

/-- `getD` after `set` at a different index is unchanged. -/
lemma getD_set_ne {α : Type} (l : List α) (i j : ℕ) (a d : α) (h : i ≠ j) :
    (l.set i a).getD j d = l.getD j d := by
  rw [List.getD_eq_getElem?_getD, List.getElem?_set_ne h,
    List.getD_eq_getElem?_getD]

/-- `getD` after an in-range `set` at the same index yields the new
value. -/
lemma getD_set_self {α : Type} (l : List α) (i : ℕ) (a d : α)
    (h : i < l.length) : (l.set i a).getD i d = a := by
  rw [List.getD_eq_getElem?_getD, List.getElem?_set_self h, Option.getD_some]

/-- An in-range `getD` is a member of the list. -/
lemma getD_mem {α : Type} (l : List α) (i : ℕ) (d : α) (h : i < l.length) :
    l.getD i d ∈ l := by
  rw [List.getD_eq_getElem?_getD, List.getElem?_eq_getElem h,
    Option.getD_some]
  exact List.getElem_mem h

/-- Writing one cell leaves every other cell unchanged. -/
lemma cell_setCell_ne (b : Board) (r c : ℕ) (t : String) (r' c' : ℕ)
    (h : r' ≠ r ∨ c' ≠ c) :
    cell (setCell b r c t) r' c' = cell b r' c' := by
  unfold cell setCell
  by_cases hr : r' = r
  · subst hr
    have hc : c' ≠ c := h.resolve_left (by simp)
    by_cases hlen : r' < b.length
    · rw [getD_set_self _ _ _ _ hlen, getD_set_ne _ _ _ _ _ (Ne.symm hc)]
    · rw [List.set_eq_of_length_le (by omega)]
  · rw [getD_set_ne _ _ _ _ _ (Ne.symm hr)]

/-- Writing one in-shape cell stores the token there. -/
lemma cell_setCell_self (b : Board) (r c : ℕ) (t : String)
    (hr : r < b.length) (hc : c < (b.getD r []).length) :
    cell (setCell b r c t) r c = t := by
  unfold cell setCell
  rw [getD_set_self _ _ _ _ hr, getD_set_self _ _ _ _ hc]

/-- `setCell` never changes the grid's shape. -/
lemma Wf_setCell (b : Board) (r c : ℕ) (t : String) (h : Wf b) :
    Wf (setCell b r c t) := by
  obtain ⟨hlen, hrows⟩ := h
  by_cases hl : r < b.length
  · refine ⟨by simp [setCell, hlen], fun row hrow => ?_⟩
    rcases List.mem_or_eq_of_mem_set hrow with hmem | heq
    · exact hrows row hmem
    · subst heq
      rw [List.length_set]
      exact hrows _ (getD_mem _ _ _ hl)
  · unfold setCell
    rw [List.set_eq_of_length_le (by omega)]
    exact ⟨hlen, hrows⟩

/-- The row a well-formed board yields at an in-range index has
`COLUMNS` cells. -/
lemma Wf.row_length {b : Board} (h : Wf b) {r : ℕ} (hr : r < ROWS) :
    (b.getD r []).length = COLUMNS := by
  obtain ⟨hlen, hrows⟩ := h
  exact hrows _ (getD_mem _ _ _ (by omega))

/-- When every row of the scan range is occupied, the scan reports a
full column. -/
lemma dropScan_full (b : Board) (c : ℕ) (t : String) :
    ∀ n, (∀ r < n, cell b r c ≠ EMPTY) → dropScan b n c t = .error .ColumnFull := by
  intro n
  induction n with
  | zero => intro _; rfl
  | succ m ih =>
    intro h
    unfold dropScan
    rw [if_neg (h m (Nat.lt_succ_self m))]
    exact ih fun r hr => h r (by omega)

/-- The scan places into row `r` exactly when `r` is the first empty row
met scanning downward-first (all rows strictly below `r` occupied). -/
lemma dropScan_place (b : Board) (c : ℕ) (t : String) :
    ∀ n r, r < n → cell b r c = EMPTY →
      (∀ r', r < r' → r' < n → cell b r' c ≠ EMPTY) →
      dropScan b n c t = .ok (r, setCell b r c t) := by
  intro n
  induction n with
  | zero => omega
  | succ m ih =>
    intro r hr hempty habove
    unfold dropScan
    by_cases hm : cell b m c = EMPTY
    · have : r = m := by
        by_contra hne
        exact habove m (by omega) (Nat.lt_succ_self m) hm
      subst this
      rw [if_pos hm]
    · rw [if_neg hm]
      have hrm : r ≠ m := fun h => hm (h ▸ hempty)
      exact ih r (by omega) hempty fun r' h1 h2 => habove r' h1 (by omega)

/-- `drop_piece`'s loop is the bool-valued projection of the scan that
also reports the placement row. -/
lemma dropFrom_eq_dropScan (b : Board) (c : ℕ) (t : String) :
    ∀ n, dropFrom b n c t =
      (match dropScan b n c t with
       | .ok p => (p.2, true)
       | .error _ => (b, false)) := by
  intro n
  induction n with
  | zero => rfl
  | succ m ih =>
    unfold dropFrom dropScan
    by_cases hm : cell b m c = EMPTY
    · rw [if_pos hm, if_pos hm]
    · rw [if_neg hm, if_neg hm, ih]

/-- C1: the spec's `drop` rejects columns outside `[0, COLUMNS)` with
`OutOfRange`; on a valid column it scans from row `ROWS-1` upward,
places the token in the first empty cell and returns that row; with no
empty cell it fails with `ColumnFull` — and in each case the source's
`drop_piece` performs the same board update, reporting merely success
or failure. -/
theorem claim_C1_drop_behaviour (b : Board) (column : ℤ) (t : String) :
    (¬ (0 ≤ column ∧ column < (COLUMNS : ℤ)) →
      drop b column t = .error .OutOfRange ∧
      drop_piece b column t = (b, false)) ∧
    ((0 ≤ column ∧ column < (COLUMNS : ℤ)) →
      ((∀ r < ROWS, cell b r column.toNat ≠ EMPTY) →
        drop b column t = .error .ColumnFull ∧
        drop_piece b column t = (b, false)) ∧
      (∀ r < ROWS, cell b r column.toNat = EMPTY →
        (∀ r', r < r' → r' < ROWS → cell b r' column.toNat ≠ EMPTY) →
        drop b column t = .ok (r, setCell b r column.toNat t) ∧
        drop_piece b column t = (setCell b r column.toNat t, true))) := by
  constructor
  · intro h
    have hc : column < 0 ∨ (COLUMNS : ℤ) ≤ column := by omega
    exact ⟨by rw [drop, if_pos hc], by rw [drop_piece, if_pos hc]⟩
  · intro h
    have hc : ¬(column < 0 ∨ (COLUMNS : ℤ) ≤ column) := by omega
    constructor
    · intro hfull
      have hscan := dropScan_full b column.toNat t ROWS hfull
      refine ⟨?_, ?_⟩
      · rw [drop, if_neg hc, hscan]
      · rw [drop_piece, if_neg hc, dropFrom_eq_dropScan, hscan]
    · intro r hr hempty habove
      have hscan := dropScan_place b column.toNat t ROWS r hr hempty habove
      refine ⟨?_, ?_⟩
      · rw [drop, if_neg hc, hscan]
      · rw [drop_piece, if_neg hc, dropFrom_eq_dropScan, hscan]

/-- Witness for C1: on the fresh board, dropping into column 3 places
at the bottom row 5 and succeeds. -/
theorem claim_C1_drop_behaviour_witness :
    drop create_board 3 "X" = .ok (5, setCell create_board 5 3 "X") ∧
    drop_piece create_board 3 "X" = (setCell create_board 5 3 "X", true) :=
  ((claim_C1_drop_behaviour create_board 3 "X").2 (by decide)).2 5
    (by decide) (by decide) (fun r' h1 h2 => by unfold ROWS at h2; omega)

/-- The scan loop either fails leaving the board untouched (every row
occupied) or writes the first empty row scanning bottom-up. -/
lemma dropFrom_cases (b : Board) (c : ℕ) (t : String) :
    ∀ n, (dropFrom b n c t = (b, false) ∧ ∀ r < n, cell b r c ≠ EMPTY) ∨
      (∃ r < n, cell b r c = EMPTY ∧
        (∀ r', r < r' → r' < n → cell b r' c ≠ EMPTY) ∧
        dropFrom b n c t = (setCell b r c t, true)) := by
  intro n
  induction n with
  | zero => exact Or.inl ⟨rfl, by omega⟩
  | succ m ih =>
    by_cases hm : cell b m c = EMPTY
    · refine Or.inr ⟨m, Nat.lt_succ_self m, hm, fun r' h1 h2 => by omega, ?_⟩
      unfold dropFrom
      rw [if_pos hm]
    · rcases ih with ⟨heq, hfull⟩ | ⟨r, hr, hempty, habove, heq⟩
      · refine Or.inl ⟨?_, fun r hr => ?_⟩
        · unfold dropFrom
          rw [if_neg hm]
          exact heq
        · rcases Nat.lt_succ_iff_lt_or_eq.mp hr with h | h
          · exact hfull r h
          · subst h; exact hm
      · refine Or.inr ⟨r, by omega, hempty, fun r' h1 h2 => ?_, ?_⟩
        · rcases Nat.lt_succ_iff_lt_or_eq.mp h2 with h | h
          · exact habove r' h1 h
          · subst h; exact hm
        · unfold dropFrom
          rw [if_neg hm]
          exact heq

/-- C5: on a well-formed board a successful `drop_piece` turns exactly
one empty cell into the token and leaves every other cell unchanged,
while a failed `drop_piece` returns the board itself, so no cell
changes. -/
theorem claim_C5_drop_frame (b : Board) (column : ℤ) (t : String)
    (hWf : Wf b) :
    ((drop_piece b column t).2 = true →
      ∃ r < ROWS, ∃ c < COLUMNS, (c : ℤ) = column ∧
        cell b r c = EMPTY ∧
        cell (drop_piece b column t).1 r c = t ∧
        ∀ r' c', r' ≠ r ∨ c' ≠ c →
          cell (drop_piece b column t).1 r' c' = cell b r' c') ∧
    ((drop_piece b column t).2 = false → (drop_piece b column t).1 = b) := by
  by_cases hval : column < 0 ∨ (COLUMNS : ℤ) ≤ column
  · rw [drop_piece, if_pos hval]
    exact ⟨fun h => by simp at h, fun _ => rfl⟩
  · rw [drop_piece, if_neg hval]
    rcases dropFrom_cases b column.toNat t ROWS with ⟨heq, -⟩ |
      ⟨r, hr, hempty, -, heq⟩
    · rw [heq]
      exact ⟨fun h => by simp at h, fun _ => rfl⟩
    · rw [heq]
      refine ⟨fun _ => ⟨r, hr, column.toNat, ?_, ?_, hempty, ?_, ?_⟩,
        fun h => by simp at h⟩
      · omega
      · omega
      · refine cell_setCell_self b r column.toNat t (by rw [hWf.1]; omega) ?_
        rw [hWf.row_length hr]
        omega
      · intro r' c' hne
        exact cell_setCell_ne b r column.toNat t r' c' hne

/-- Witness for C5: dropping into column 0 of the fresh board succeeds
and changes exactly the bottom-left cell. -/
theorem claim_C5_drop_frame_witness :
    ∃ r < ROWS, ∃ c < COLUMNS, (c : ℤ) = (0 : ℤ) ∧
      cell create_board r c = EMPTY ∧
      cell (drop_piece create_board 0 "O").1 r c = "O" ∧
      ∀ r' c', r' ≠ r ∨ c' ≠ c →
        cell (drop_piece create_board 0 "O").1 r' c' =
          cell create_board r' c' :=
  (claim_C5_drop_frame create_board 0 "O" ⟨by decide, by decide⟩).1
    (by decide)

/-- `is_draw` succeeds exactly when every cell of row 0 is non-empty. -/
lemma is_draw_iff (b : Board) :
    is_draw b = true ↔ ∀ c < COLUMNS, cell b 0 c ≠ EMPTY := by
  simp [is_draw, List.all_eq_true, List.mem_range]

/-- Every board reachable by `drop_piece` calls is well-formed and
satisfies the gravity invariant. -/
lemma reachable_wf_gravity (b : Board) (h : Reachable b) :
    Wf b ∧ Gravity b := by
  induction h with
  | init =>
    refine ⟨⟨by decide, by decide⟩, ?_⟩
    intro r hr c hc r' hr' hlt hne
    exact absurd (by decide : ∀ r'' < ROWS, ∀ c'' < COLUMNS,
      cell create_board r'' c'' = EMPTY) (by push_neg; exact ⟨r, hr, c, hc, hne⟩)
  | step b c t hb ih =>
    obtain ⟨hWf, hg⟩ := ih
    by_cases hval : c < 0 ∨ (COLUMNS : ℤ) ≤ c
    · rw [drop_piece, if_pos hval]
      exact ⟨hWf, hg⟩
    · rw [drop_piece, if_neg hval]
      rcases dropFrom_cases b c.toNat t ROWS with ⟨heq, -⟩ |
        ⟨r, hr, hempty, habove, heq⟩
      · rw [heq]
        exact ⟨hWf, hg⟩
      · rw [heq]
        refine ⟨Wf_setCell b r c.toNat t hWf, ?_⟩
        intro r₁ hr₁ c₁ hc₁ r₂ hr₂ hlt h₁
        by_cases hA : r₁ = r ∧ c₁ = c.toNat
        · obtain ⟨hA1, hA2⟩ := hA
          have hne₂ : r₂ ≠ r ∨ c₁ ≠ c.toNat := Or.inl (by omega)
          rw [cell_setCell_ne b r c.toNat t r₂ c₁ hne₂, hA2]
          exact habove r₂ (hA1 ▸ hlt) hr₂
        · have hne₁ : r₁ ≠ r ∨ c₁ ≠ c.toNat := by tauto
          rw [cell_setCell_ne b r c.toNat t r₁ c₁ hne₁] at h₁
          have hbelow : cell b r₂ c₁ ≠ EMPTY := hg r₁ hr₁ c₁ hc₁ r₂ hr₂ hlt h₁
          by_cases hB : r₂ = r ∧ c₁ = c.toNat
          · exact absurd (hB.2 ▸ hB.1 ▸ hempty) hbelow
          · have hne₂ : r₂ ≠ r ∨ c₁ ≠ c.toNat := by tauto
            rw [cell_setCell_ne b r c.toNat t r₂ c₁ hne₂]
            exact hbelow

/-- C7: every board reachable from the fresh board by drops satisfies
the gravity invariant — a non-empty cell has everything below it in its
column non-empty — and hence a full top row means a full board. -/
theorem claim_C7_reachable_gravity (b : Board) (h : Reachable b) :
    Gravity b ∧
    (is_draw b = true → ∀ r < ROWS, ∀ c < COLUMNS, cell b r c ≠ EMPTY) := by
  obtain ⟨-, hg⟩ := reachable_wf_gravity b h
  refine ⟨hg, fun hdraw r hr c hc => ?_⟩
  have h0 : cell b 0 c ≠ EMPTY := (is_draw_iff b).mp hdraw c hc
  rcases Nat.eq_zero_or_pos r with h0r | h0r
  · subst h0r; exact h0
  · exact hg 0 (by decide) c hc r hr h0r h0

/-- Witness for C7: the conclusion instantiated at the fresh board. -/
theorem claim_C7_reachable_gravity_witness :
    Gravity create_board ∧
    (is_draw create_board = true →
      ∀ r < ROWS, ∀ c < COLUMNS, cell create_board r c ≠ EMPTY) :=
  claim_C7_reachable_gravity create_board Reachable.init

/-- Counterexample for C3 as stated: on `topRowOnly` the function
`is_draw` returns true, yet an `EMPTY` cell remains at `(1, 0)`, so a
full top row is not in general equivalent to a board with no empty
cell. -/
theorem claim_C3_counterexample :
    is_draw topRowOnly = true ∧ cell topRowOnly 1 0 = EMPTY := by
  decide

/-- C3 (amended): `is_draw` is true iff every cell of row 0 is
non-empty, and on boards satisfying the gravity invariant — in
particular every reachable board — this is equivalent to no empty cell
remaining anywhere. -/
theorem claim_C3_is_draw (b : Board) :
    (is_draw b = true ↔ ∀ c < COLUMNS, cell b 0 c ≠ EMPTY) ∧
    (Gravity b →
      (is_draw b = true ↔
        ∀ r < ROWS, ∀ c < COLUMNS, cell b r c ≠ EMPTY)) := by
  refine ⟨is_draw_iff b, fun hg => ?_⟩
  rw [is_draw_iff]
  constructor
  · intro h0 r hr c hc
    rcases Nat.eq_zero_or_pos r with h0r | h0r
    · subst h0r; exact h0 c hc
    · exact hg 0 (by decide) c hc r hr h0r (h0 c hc)
  · intro hall c hc
    exact hall 0 (by decide) c hc

/-- Every in-range cell of the all-`"X"` board holds `"X"`. -/
lemma cell_fullX (r c : ℕ) (hr : r < ROWS) (hc : c < COLUMNS) :
    cell fullX r c = "X" := by
  unfold cell fullX
  simp [List.getD_eq_getElem?_getD, List.getElem?_replicate, hr, hc]

/-- Every cell of the freshly created board reads `EMPTY` (also out of
range, where the accessor's default applies). -/
lemma cell_create_board (r c : ℕ) : cell create_board r c = EMPTY := by
  unfold cell create_board
  simp only [List.getD_eq_getElem?_getD, List.getElem?_replicate]
  split
  · simp only [Option.getD_some, List.getElem?_replicate]
    split <;> rfl
  · rfl

/-- On a valid column, `drop_piece` on a board whose column `c` is empty
up to row `k-1` and occupied from row `k` places the token at `k-1`. -/
lemma drop_piece_at (b : Board) (c : ℕ) (t : String) (hc : c < COLUMNS)
    (k : ℕ) (hk0 : 0 < k) (hkR : k ≤ ROWS)
    (hempty : ∀ r < k, cell b r c = EMPTY)
    (hfull : ∀ r, k ≤ r → r < ROWS → cell b r c ≠ EMPTY) :
    drop_piece b (c : ℤ) t = (setCell b (k - 1) c t, true) := by
  have hval : ¬((c : ℤ) < 0 ∨ (COLUMNS : ℤ) ≤ (c : ℤ)) := by
    push_neg
    constructor
    · exact Int.natCast_nonneg c
    · exact_mod_cast hc
  rw [drop_piece, if_neg hval]
  have htn : ((c : ℤ)).toNat = c := Int.toNat_natCast c
  rw [htn, dropFrom_eq_dropScan,
    dropScan_place b c t ROWS (k - 1) (by omega) (hempty _ (by omega))
      (fun r' h1 h2 => hfull r' (by omega) h2)]

/-- Dropping a list of non-empty tokens into a column whose lowest `k`
free rows are exactly rows `0..k-1` succeeds throughout, touches only
that column's rows `k - |ts| .. k-1`, and stacks the tokens there
bottom-to-top in order. -/
lemma dropSeq_fill (c : ℕ) (hc : c < COLUMNS) :
    ∀ (ts : List String), (∀ t ∈ ts, t ≠ EMPTY) →
    ∀ (b : Board) (k : ℕ), Wf b → ts.length ≤ k → k ≤ ROWS →
    (∀ r < k, cell b r c = EMPTY) →
    (∀ r, k ≤ r → r < ROWS → cell b r c ≠ EMPTY) →
    (dropSeq b (c : ℤ) ts).2 = true ∧
    Wf (dropSeq b (c : ℤ) ts).1 ∧
    (∀ r c', c' ≠ c ∨ r < k - ts.length ∨ k ≤ r →
      cell (dropSeq b (c : ℤ) ts).1 r c' = cell b r c') ∧
    (∀ i < ts.length,
      cell (dropSeq b (c : ℤ) ts).1 (k - 1 - i) c = ts.getD i EMPTY) := by
  intro ts
  induction ts with
  | nil =>
    intro _ b k hWf _ _ _ _
    exact ⟨rfl, hWf, fun _ _ _ => rfl, fun i hi => absurd hi (by simp)⟩
  | cons t rest ih =>
    intro hts b k hWf hlen hkR hempty hfull
    have ht : t ≠ EMPTY := hts t (by simp)
    have hk0 : 0 < k := by simp at hlen; omega
    have hstep := drop_piece_at b c t hc k hk0 hkR hempty hfull
    have hb₁Wf : Wf (setCell b (k - 1) c t) := Wf_setCell b (k - 1) c t hWf
    have hb₁empty : ∀ r < k - 1, cell (setCell b (k - 1) c t) r c = EMPTY := by
      intro r hr
      rw [cell_setCell_ne b (k - 1) c t r c (Or.inl (by omega))]
      exact hempty r (by omega)
    have hb₁self : cell (setCell b (k - 1) c t) (k - 1) c = t := by
      refine cell_setCell_self b (k - 1) c t (by rw [hWf.1]; omega) ?_
      rw [hWf.row_length (by omega : k - 1 < ROWS)]
      omega
    have hb₁full : ∀ r, k - 1 ≤ r → r < ROWS →
        cell (setCell b (k - 1) c t) r c ≠ EMPTY := by
      intro r h1 h2
      rcases eq_or_ne r (k - 1) with h | h
      · subst h; rw [hb₁self]; exact ht
      · rw [cell_setCell_ne b (k - 1) c t r c (Or.inl h)]
        exact hfull r (by omega) h2
    have hrest : ∀ t' ∈ rest, t' ≠ EMPTY := fun t' h => hts t' (by simp [h])
    obtain ⟨ih2, ihWf, ihframe, ihfill⟩ :=
      ih hrest (setCell b (k - 1) c t) (k - 1) hb₁Wf
        (by simp at hlen; omega) (by omega) hb₁empty hb₁full
    have hseq : dropSeq b (c : ℤ) (t :: rest) =
        ((dropSeq (setCell b (k - 1) c t) (c : ℤ) rest).1,
          true && (dropSeq (setCell b (k - 1) c t) (c : ℤ) rest).2) := by
      simp only [dropSeq, hstep]
    rw [hseq]
    refine ⟨by simp [ih2], ihWf, ?_, ?_⟩
    · intro r c' hcond
      have hlen' : (t :: rest).length = rest.length + 1 := rfl
      have hcond' : c' ≠ c ∨ r < (k - 1) - rest.length ∨ k - 1 ≤ r := by
        rcases hcond with h | h | h
        · exact Or.inl h
        · exact Or.inr (Or.inl (by rw [hlen'] at h; omega))
        · exact Or.inr (Or.inr (by omega))
      rw [ihframe r c' hcond']
      have hne : r ≠ k - 1 ∨ c' ≠ c := by
        rcases hcond with h | h | h
        · exact Or.inr h
        · exact Or.inl (by rw [hlen'] at h; omega)
        · exact Or.inl (by omega)
      exact cell_setCell_ne b (k - 1) c t r c' hne
    · intro i hi
      match i with
      | 0 =>
        have : cell (dropSeq (setCell b (k - 1) c t) (c : ℤ) rest).1 (k - 1) c
            = cell (setCell b (k - 1) c t) (k - 1) c :=
          ihframe (k - 1) c (Or.inr (Or.inr (by omega)))
        simpa [this] using hb₁self
      | j + 1 =>
        have hj : j < rest.length := by simp at hi; omega
        have := ihfill j hj
        have harith : k - 1 - (j + 1) = (k - 1) - 1 - j := by omega
        rw [harith]
        simpa using this

/-- C6: on a fresh board the first drop into any valid column `c` lands
at row `ROWS - 1`; dropping `ROWS` non-empty tokens into `c` succeeds
every time and stacks them bottom-to-top in order, and one further drop
into `c` fails (`ColumnFull` under the spec interface, failure flag in
the source). -/
theorem claim_C6_column_fill (c : ℕ) (hc : c < COLUMNS) (ts : List String)
    (hlen : ts.length = ROWS) (hts : ∀ t ∈ ts, t ≠ EMPTY)
    (t₀ t' : String) :
    drop_piece create_board (c : ℤ) t₀ =
      (setCell create_board (ROWS - 1) c t₀, true) ∧
    (dropSeq create_board (c : ℤ) ts).2 = true ∧
    (∀ i < ROWS,
      cell (dropSeq create_board (c : ℤ) ts).1 (ROWS - 1 - i) c =
        ts.getD i EMPTY) ∧
    drop (dropSeq create_board (c : ℤ) ts).1 (c : ℤ) t' =
      .error .ColumnFull ∧
    drop_piece (dropSeq create_board (c : ℤ) ts).1 (c : ℤ) t' =
      ((dropSeq create_board (c : ℤ) ts).1, false) := by
  have hWf0 : Wf create_board := ⟨by decide, by decide⟩
  have hempty0 : ∀ r < ROWS, cell create_board r c = EMPTY :=
    fun r _ => cell_create_board r c
  have hfull0 : ∀ r, ROWS ≤ r → r < ROWS → cell create_board r c ≠ EMPTY :=
    fun r h1 h2 => by omega
  obtain ⟨hsucc, -, -, hfill⟩ :=
    dropSeq_fill c hc ts hts create_board ROWS hWf0 (by omega) le_rfl
      hempty0 hfull0
  have hfirst : drop_piece create_board (c : ℤ) t₀ =
      (setCell create_board (ROWS - 1) c t₀, true) :=
    drop_piece_at create_board c t₀ hc ROWS (by decide) le_rfl hempty0 hfull0
  have hfinalfull : ∀ r < ROWS,
      cell (dropSeq create_board (c : ℤ) ts).1 r c ≠ EMPTY := by
    intro r hr
    have hi : ROWS - 1 - r < ROWS := by omega
    have := hfill (ROWS - 1 - r) (by omega)
    have harith : ROWS - 1 - (ROWS - 1 - r) = r := by omega
    rw [harith] at this
    rw [this]
    have hmem : ts.getD (ROWS - 1 - r) EMPTY ∈ ts := by
      rw [List.getD_eq_getElem?_getD,
        List.getElem?_eq_getElem (by omega : ROWS - 1 - r < ts.length),
        Option.getD_some]
      exact List.getElem_mem _
    exact hts _ hmem
  have hval : ¬((c : ℤ) < 0 ∨ (COLUMNS : ℤ) ≤ (c : ℤ)) := by
    push_neg
    exact ⟨Int.natCast_nonneg c, by exact_mod_cast hc⟩
  have htn : ((c : ℤ)).toNat = c := Int.toNat_natCast c
  refine ⟨hfirst, hsucc, fun i hi => hfill i (by omega), ?_, ?_⟩
  · rw [drop, if_neg hval, htn, dropScan_full _ _ _ _ hfinalfull]
  · rw [drop_piece, if_neg hval, htn, dropFrom_eq_dropScan,
      dropScan_full _ _ _ _ hfinalfull]

/-- Witness for C6: column 0, tokens alternating `"X"`, `"O"`. -/
theorem claim_C6_column_fill_witness :
    drop_piece create_board 0 "X" =
      (setCell create_board (ROWS - 1) 0 "X", true) ∧
    (dropSeq create_board 0 ["X", "O", "X", "O", "X", "O"]).2 = true ∧
    (∀ i < ROWS,
      cell (dropSeq create_board 0 ["X", "O", "X", "O", "X", "O"]).1
        (ROWS - 1 - i) 0 = ["X", "O", "X", "O", "X", "O"].getD i EMPTY) ∧
    drop (dropSeq create_board 0 ["X", "O", "X", "O", "X", "O"]).1 0 "X" =
      .error .ColumnFull ∧
    drop_piece (dropSeq create_board 0 ["X", "O", "X", "O", "X", "O"]).1
      0 "X" =
      ((dropSeq create_board 0 ["X", "O", "X", "O", "X", "O"]).1, false) :=
  claim_C6_column_fill 0 (by decide) ["X", "O", "X", "O", "X", "O"]
    (by decide) (by decide) "X" "X"

/-- C8: for either player token, a board holding exactly a minimal
4-cell main-diagonal run (anchored at any feasible `(r, c)`) or
anti-diagonal run (anchored at `(r, c + 3)`) makes `has_winner` true,
and blanking any single one of the four run cells makes it false. -/
theorem claim_C8_diagonal_runs (T : String) (hT : T = "X" ∨ T = "O") :
    ∀ r < ROWS - 3, ∀ c < COLUMNS - 3,
      has_winner (diagBoard T r c) = true ∧
      (∀ i < 4,
        has_winner (setCell (diagBoard T r c) (r + i) (c + i) EMPTY)
          = false) ∧
      has_winner (antiBoard T r (c + 3)) = true ∧
      (∀ i < 4,
        has_winner (setCell (antiBoard T r (c + 3)) (r + i) (c + 3 - i)
          EMPTY) = false) := by
  rcases hT with h | h <;> subst h <;> decide

/-- Witness for C8: the `"X"` runs anchored at the top-left feasible
anchor. -/
theorem claim_C8_diagonal_runs_witness :
    has_winner (diagBoard "X" 0 0) = true ∧
    (∀ i < 4,
      has_winner (setCell (diagBoard "X" 0 0) (0 + i) (0 + i) EMPTY)
        = false) ∧
    has_winner (antiBoard "X" 0 (0 + 3)) = true ∧
    (∀ i < 4,
      has_winner (setCell (antiBoard "X" 0 (0 + 3)) (0 + i) (0 + 3 - i)
        EMPTY) = false) :=
  claim_C8_diagonal_runs "X" (Or.inl rfl) 0 (by decide) 0 (by decide)

/-- Witness for C3: the full-board equivalence holds at the all-`"X"`
board, whose gravity hypothesis is discharged cell by cell. -/
theorem claim_C3_is_draw_witness :
    is_draw fullX = true ↔
      ∀ r < ROWS, ∀ c < COLUMNS, cell fullX r c ≠ EMPTY :=
  (claim_C3_is_draw fullX).2 (by
    unfold Gravity
    intro r hr c hc r' hr' hlt hne
    rw [cell_fullX r' c hr' hc]
    decide)

end FourInARow
